import Mathlib

/-
  Verification of the VGA text-mode driver in `src/blog_os/src/vga_buffer.rs`.

  The driver is embedded shallowly: machine bytes are `Nat` (with `% 256`
  where u8 arithmetic could wrap), the memory-mapped buffer is a total
  function from (row, col) to cell contents, and each volatile cell write is
  a pointwise function update.  The loops of the source (`new_line`, `clear_row`)
  become left folds over the same index ranges, reading from the threaded
  buffer state exactly as the Rust loops read from the live buffer.
-/

namespace VgaBuffer

/-- The VGA palette: `enum Color`, `#[repr(u8)]`, discriminants 0..15. -/
inductive Color where
  | Black
  | Blue
  | Green
  | Cyan
  | Red
  | Magenta
  | Brown
  | LightGray
  | DarkGray
  | LightBlue
  | LightGreen
  | LightCyan
  | LightRed
  | Pink
  | Yellow
  | White
  deriving DecidableEq

/-- The `u8` discriminant of each `Color` variant (`Color as u8`). -/
def Color.code : Color → Nat
  | .Black => 0
  | .Blue => 1
  | .Green => 2
  | .Cyan => 3
  | .Red => 4
  | .Magenta => 5
  | .Brown => 6
  | .LightGray => 7
  | .DarkGray => 8
  | .LightBlue => 9
  | .LightGreen => 10
  | .LightCyan => 11
  | .LightRed => 12
  | .Pink => 13
  | .Yellow => 14
  | .White => 15

/-- Rust `struct ColorCode(u8)`: the packed color attribute byte. -/
structure ColorCode where
  val : Nat
  deriving DecidableEq

/-- Embeds `ColorCode::new`: `ColorCode((background as u8) << 4 | (foreground as u8))`,
    computed in `u8` (hence the `% 256`). -/
def ColorCode.new (foreground background : Color) : ColorCode :=
  ⟨((background.code <<< 4) ||| foreground.code) % 256⟩

/-- Rust `struct ScreenChar { ascii_character: u8, color_code: ColorCode }`. -/
structure ScreenChar where
  ascii_character : Nat
  color_code : ColorCode
  deriving DecidableEq

/-- Embeds `const BUFFER_HEIGHT: usize = 25`. -/
def BUFFER_HEIGHT : Nat := 25

/-- Embeds `const BUFFER_WIDTH: usize = 80`. -/
def BUFFER_WIDTH : Nat := 80

/-- Rust `struct Buffer { chars: [[Volatile<ScreenChar>; BUFFER_WIDTH]; BUFFER_HEIGHT] }`,
    modelled as cell contents indexed by (row, col). -/
abbrev Buffer := Nat → Nat → ScreenChar

/-- One volatile write of a full `ScreenChar` to `chars[row][col]`. -/
def Buffer.writeCell (buf : Buffer) (row col : Nat) (v : ScreenChar) : Buffer :=
  fun r c => if r = row ∧ c = col then v else buf r c

/-- Rust `struct Writer { column_position, color_code, buffer }`. -/
structure Writer where
  column_position : Nat
  color_code : ColorCode
  buffer : Buffer

/-- Embeds `Writer::clear_row`: fill every cell of `row` with the blank
    cell holding character 0x20 in the current color. -/
def Writer.clear_row (w : Writer) (row : Nat) : Writer :=
  let blank : ScreenChar := { ascii_character := 0x20, color_code := w.color_code }
  { w with
      buffer := (List.range BUFFER_WIDTH).foldl
        (fun b col => b.writeCell row col blank) w.buffer }

/-- Embeds `Writer::new_line`: for each `row in 1..BUFFER_HEIGHT` and
    `col in 0..BUFFER_WIDTH`, read `chars[row][col]` from the current buffer
    and write it to `chars[row-1][col]`; then `clear_row(BUFFER_HEIGHT - 1)`;
    then `column_position = 0`. -/
def Writer.new_line (w : Writer) : Writer :=
  let copied : Buffer := (List.range' 1 (BUFFER_HEIGHT - 1)).foldl
    (fun b row => (List.range BUFFER_WIDTH).foldl
      (fun b2 col => b2.writeCell (row - 1) col (b2 row col)) b) w.buffer
  let w1 := Writer.clear_row { w with buffer := copied } (BUFFER_HEIGHT - 1)
  { w1 with column_position := 0 }

/-- Embeds `Writer::write_byte`: newline (0x0A) triggers `new_line`; any other byte
    first wraps via `new_line` when `column_position >= BUFFER_WIDTH`, then is
    written at `(BUFFER_HEIGHT - 1, column_position)` with the current color,
    and `column_position` is incremented. -/
def Writer.write_byte (w : Writer) (byte : Nat) : Writer :=
  if byte = 0x0A then
    w.new_line
  else
    let w1 := if BUFFER_WIDTH ≤ w.column_position then w.new_line else w
    { w1 with
        buffer := w1.buffer.writeCell (BUFFER_HEIGHT - 1) w1.column_position
          { ascii_character := byte, color_code := w1.color_code },
        column_position := w1.column_position + 1 }

/-- Embeds `Writer::write_string`: for each byte of the input (a raw byte sequence),
    forward it to `write_byte` when it is printable ASCII `0x20..=0x7e` or
    newline, and forward `0xfe` otherwise. -/
def Writer.write_string (w : Writer) (s : List Nat) : Writer :=
  s.foldl
    (fun w1 byte =>
      if (0x20 ≤ byte ∧ byte ≤ 0x7e) ∨ byte = 0x0A then w1.write_byte byte
      else w1.write_byte 0xFE)
    w

/-- Models `core::fmt::Result`: `Ok(())` or `Err(fmt::Error)`. -/
inductive FmtResult where
  | ok
  | error
  deriving DecidableEq

/-- Embeds `<Writer as fmt::Write>::write_str`: calls `write_string` and returns
    `Ok(())`. -/
def Writer.write_str (w : Writer) (s : List Nat) : Writer × FmtResult :=
  (w.write_string s, FmtResult.ok)

/-- The byte that `write_string` forwards to `write_byte` for a given input
    byte (the filtering rule of the spec, stated as a function). -/
def forwardByte (byte : Nat) : Nat :=
  if (0x20 ≤ byte ∧ byte ≤ 0x7e) ∨ byte = 0x0A then byte else 0xFE

/-- One public write operation on the `Writer` (a `write_byte` or a
    `write_string` call). -/
inductive WriteOp where
  | byte (b : Nat)
  | str (s : List Nat)

/-- Apply one write operation. -/
def Writer.applyOp (w : Writer) : WriteOp → Writer
  | .byte b => w.write_byte b
  | .str s => w.write_string s

/-- Apply a finite sequence of write operations in order. -/
def Writer.applyOps (w : Writer) (ops : List WriteOp) : Writer :=
  ops.foldl Writer.applyOp w

/-- Number of `new_line` invocations a `write_byte` call performs, read off
    the branch structure of `Writer::write_byte`. -/
def Writer.write_byte_scrolls (w : Writer) (byte : Nat) : Nat :=
  if byte = 0x0A then 1
  else if BUFFER_WIDTH ≤ w.column_position then 1
  else 0

/-- Variant of `write_string` instrumented with the cumulative count of `new_line`
    invocations it performs. -/
def Writer.write_string_tracked (w : Writer) (s : List Nat) : Writer × Nat :=
  s.foldl
    (fun p byte =>
      (p.1.write_byte (forwardByte byte),
       p.2 + p.1.write_byte_scrolls (forwardByte byte)))
    (w, 0)

/-- Number of `new_line` invocations (wraps/scrolls) a `write_string` call
    performs. -/
def Writer.write_string_scrolls (w : Writer) (s : List Nat) : Nat :=
  (w.write_string_tracked s).2

/-- The state the global `WRITER` is constructed with: column 0, yellow on
    black (the initial hardware buffer contents are outside the program;
    blanks are used here). -/
def initialWriter : Writer :=
  { column_position := 0,
    color_code := ColorCode.new Color.Yellow Color.Black,
    buffer := fun _ _ =>
      { ascii_character := 0x20, color_code := ColorCode.new Color.Yellow Color.Black } }

/-- A cell character byte that `write_string` can have produced: printable
    ASCII or the replacement glyph 0xFE. -/
def cellOk (sc : ScreenChar) : Prop :=
  (0x20 ≤ sc.ascii_character ∧ sc.ascii_character ≤ 0x7e) ∨ sc.ascii_character = 0xFE

/-! ### Pointwise characterizations of the buffer loops -/

lemma writeCell_apply (buf : Buffer) (row col : Nat) (v : ScreenChar) (r c : Nat) :
    buf.writeCell row col v r c = if r = row ∧ c = col then v else buf r c := rfl

lemma foldl_clear_apply (b : Buffer) (row : Nat) (v : ScreenChar) (n : Nat) :
    ∀ r c, ((List.range n).foldl (fun b2 col => b2.writeCell row col v) b) r c
      = if r = row ∧ c < n then v else b r c := by
  induction n with
  | zero => intro r c; simp
  | succ k ih =>
    intro r c
    rw [List.range_succ, List.foldl_append, List.foldl_cons, List.foldl_nil,
      writeCell_apply, ih r c]
    split_ifs <;> first | rfl | omega

lemma foldl_copyRow_apply (b : Buffer) (row : Nat) (hrow : 1 ≤ row) (n : Nat) :
    ∀ r c, ((List.range n).foldl
        (fun b2 col => b2.writeCell (row - 1) col (b2 row col)) b) r c
      = if r = row - 1 ∧ c < n then b row c else b r c := by
  induction n with
  | zero => intro r c; simp
  | succ k ih =>
    intro r c
    rw [List.range_succ, List.foldl_append, List.foldl_cons, List.foldl_nil,
      writeCell_apply, ih row k, ih r c]
    by_cases h1 : r = row - 1 ∧ c = k
    · obtain ⟨hr, hc⟩ := h1
      have hx : ¬(row = row - 1 ∧ k < k) := by omega
      rw [if_pos ⟨hr, hc⟩, if_neg hx, if_pos ⟨hr, by omega⟩, hc]
    · rw [if_neg h1]
      by_cases h2 : r = row - 1 ∧ c < k
      · rw [if_pos h2, if_pos ⟨h2.1, by omega⟩]
      · rw [if_neg h2, if_neg (by omega)]

lemma foldl_copyRows_apply (b : Buffer) (k : Nat) :
    ∀ r c, ((List.range' 1 k).foldl
        (fun bb row => (List.range BUFFER_WIDTH).foldl
          (fun b2 col => b2.writeCell (row - 1) col (b2 row col)) bb) b) r c
      = if r + 1 ≤ k ∧ c < BUFFER_WIDTH then b (r + 1) c else b r c := by
  induction k with
  | zero => intro r c; simp
  | succ m ih =>
    intro r c
    rw [List.range'_1_concat, List.foldl_append, List.foldl_cons, List.foldl_nil,
      foldl_copyRow_apply _ (1 + m) (by omega) _ r c, ih r c]
    by_cases h1 : r = 1 + m - 1 ∧ c < BUFFER_WIDTH
    · obtain ⟨hr, hc⟩ := h1
      rw [if_pos ⟨hr, hc⟩, ih (1 + m) c,
        if_neg (by omega : ¬(1 + m + 1 ≤ m ∧ c < BUFFER_WIDTH)),
        if_pos ⟨by omega, hc⟩]
      have : r + 1 = 1 + m := by omega
      rw [this]
    · rw [if_neg h1]
      by_cases h2 : r + 1 ≤ m ∧ c < BUFFER_WIDTH
      · rw [if_pos h2, if_pos ⟨by omega, h2.2⟩]
      · rw [if_neg h2, if_neg (by omega)]

lemma clear_row_buffer (w : Writer) (row : Nat) (r c : Nat) :
    (w.clear_row row).buffer r c
      = if r = row ∧ c < BUFFER_WIDTH
        then { ascii_character := 0x20, color_code := w.color_code }
        else w.buffer r c :=
  foldl_clear_apply _ _ _ _ r c

lemma clear_row_column (w : Writer) (row : Nat) :
    (w.clear_row row).column_position = w.column_position := rfl

lemma clear_row_color (w : Writer) (row : Nat) :
    (w.clear_row row).color_code = w.color_code := rfl

lemma new_line_buffer (w : Writer) (r c : Nat) :
    (w.new_line).buffer r c
      = if r = BUFFER_HEIGHT - 1 ∧ c < BUFFER_WIDTH
        then { ascii_character := 0x20, color_code := w.color_code }
        else if r + 1 ≤ BUFFER_HEIGHT - 1 ∧ c < BUFFER_WIDTH
        then w.buffer (r + 1) c
        else w.buffer r c := by
  show (Writer.clear_row _ (BUFFER_HEIGHT - 1)).buffer r c = _
  rw [clear_row_buffer]
  by_cases h1 : r = BUFFER_HEIGHT - 1 ∧ c < BUFFER_WIDTH
  · rw [if_pos h1, if_pos h1]
  · rw [if_neg h1, if_neg h1]
    exact foldl_copyRows_apply _ _ r c

lemma new_line_column (w : Writer) : (w.new_line).column_position = 0 := rfl

lemma new_line_color (w : Writer) : (w.new_line).color_code = w.color_code := rfl

/-! ### `write_byte` case analysis -/

lemma write_byte_newline (w : Writer) : w.write_byte 0x0A = w.new_line := by
  simp [Writer.write_byte]

lemma write_byte_no_wrap (w : Writer) (b : Nat) (hb : b ≠ 0x0A)
    (hc : w.column_position < BUFFER_WIDTH) :
    w.write_byte b
      = { w with
            buffer := w.buffer.writeCell (BUFFER_HEIGHT - 1) w.column_position
              { ascii_character := b, color_code := w.color_code },
            column_position := w.column_position + 1 } := by
  simp only [Writer.write_byte, if_neg hb, if_neg (Nat.not_le.mpr hc)]

lemma write_byte_wrap (w : Writer) (b : Nat) (hb : b ≠ 0x0A)
    (hc : BUFFER_WIDTH ≤ w.column_position) :
    w.write_byte b
      = { w.new_line with
            buffer := (w.new_line).buffer.writeCell (BUFFER_HEIGHT - 1) 0
              { ascii_character := b, color_code := w.color_code },
            column_position := 1 } := by
  simp only [Writer.write_byte, if_neg hb, if_pos hc, new_line_column, new_line_color,
    Nat.zero_add]

lemma write_byte_column_le (w : Writer) (b : Nat) :
    (w.write_byte b).column_position ≤ BUFFER_WIDTH := by
  by_cases hb : b = 0x0A
  · rw [hb, write_byte_newline, new_line_column]
    exact Nat.zero_le _
  · by_cases hc : w.column_position < BUFFER_WIDTH
    · rw [write_byte_no_wrap w b hb hc]
      exact hc
    · rw [write_byte_wrap w b hb (Nat.not_lt.mp hc)]
      show 1 ≤ BUFFER_WIDTH
      decide

lemma write_string_cons (w : Writer) (b : Nat) (t : List Nat) :
    w.write_string (b :: t)
      = Writer.write_string
          (if (0x20 ≤ b ∧ b ≤ 0x7e) ∨ b = 0x0A then w.write_byte b
           else w.write_byte 0xFE) t := rfl

lemma write_string_step_eq (w : Writer) (b : Nat) :
    (if (0x20 ≤ b ∧ b ≤ 0x7e) ∨ b = 0x0A then w.write_byte b else w.write_byte 0xFE)
      = w.write_byte (forwardByte b) := by
  unfold forwardByte
  split_ifs <;> rfl

lemma write_string_column_le (w : Writer) (s : List Nat)
    (h : w.column_position ≤ BUFFER_WIDTH) :
    (w.write_string s).column_position ≤ BUFFER_WIDTH := by
  induction s generalizing w with
  | nil => exact h
  | cons b t ih =>
    rw [write_string_cons, write_string_step_eq]
    exact ih _ (write_byte_column_le _ _)

lemma applyOps_column_le (w : Writer) (ops : List WriteOp)
    (h : w.column_position ≤ BUFFER_WIDTH) :
    (w.applyOps ops).column_position ≤ BUFFER_WIDTH := by
  induction ops generalizing w with
  | nil => exact h
  | cons op t ih =>
    show (Writer.applyOps (w.applyOp op) t).column_position ≤ BUFFER_WIDTH
    apply ih
    cases op with
    | byte b => exact write_byte_column_le _ _
    | str s => exact write_string_column_le _ _ h

/-! ### Scroll counting -/

lemma write_string_tracked_go (s : List Nat) :
    ∀ (w : Writer) (n : Nat),
      (s.foldl (fun p byte =>
          (p.1.write_byte (forwardByte byte),
           p.2 + p.1.write_byte_scrolls (forwardByte byte))) (w, n)).1
        = w.write_string s
      ∧ (s.foldl (fun p byte =>
          (p.1.write_byte (forwardByte byte),
           p.2 + p.1.write_byte_scrolls (forwardByte byte))) (w, n)).2
        = n + w.write_string_scrolls s := by
  induction s with
  | nil =>
    intro w n
    exact ⟨rfl, by simp [Writer.write_string_scrolls, Writer.write_string_tracked]⟩
  | cons b t ih =>
    intro w n
    rw [List.foldl_cons]
    constructor
    · rw [(ih (w.write_byte (forwardByte b)) (n + w.write_byte_scrolls (forwardByte b))).1,
        write_string_cons, write_string_step_eq]
    · rw [(ih (w.write_byte (forwardByte b)) (n + w.write_byte_scrolls (forwardByte b))).2]
      have hrhs : w.write_string_scrolls (b :: t)
          = (0 + w.write_byte_scrolls (forwardByte b))
            + (w.write_byte (forwardByte b)).write_string_scrolls t := by
        show (List.foldl _ ((w, 0) : Writer × Nat) (b :: t)).2 = _
        rw [List.foldl_cons,
          (ih (w.write_byte (forwardByte b)) (0 + w.write_byte_scrolls (forwardByte b))).2]
      rw [hrhs]
      omega

lemma write_string_tracked_fst (w : Writer) (s : List Nat) :
    (w.write_string_tracked s).1 = w.write_string s :=
  (write_string_tracked_go s w 0).1

lemma write_string_scrolls_cons (w : Writer) (b : Nat) (t : List Nat) :
    w.write_string_scrolls (b :: t)
      = w.write_byte_scrolls (forwardByte b)
        + (w.write_byte (forwardByte b)).write_string_scrolls t := by
  show (List.foldl _ ((w, 0) : Writer × Nat) (b :: t)).2 = _
  rw [List.foldl_cons,
    (write_string_tracked_go t (w.write_byte (forwardByte b))
      (0 + w.write_byte_scrolls (forwardByte b))).2]
  omega

lemma write_string_append (w : Writer) (s t : List Nat) :
    w.write_string (s ++ t) = (w.write_string s).write_string t :=
  List.foldl_append _ _ s t

lemma write_string_scrolls_append (w : Writer) (s t : List Nat) :
    w.write_string_scrolls (s ++ t)
      = w.write_string_scrolls s + (w.write_string s).write_string_scrolls t := by
  show (List.foldl _ ((w, 0) : Writer × Nat) (s ++ t)).2 = _
  rw [List.foldl_append]
  have h1 : (List.foldl (fun p byte =>
      (p.1.write_byte (forwardByte byte),
       p.2 + p.1.write_byte_scrolls (forwardByte byte))) ((w, 0) : Writer × Nat) s)
      = (w.write_string s, w.write_string_scrolls s) := by
    refine Prod.ext ?_ ?_
    · exact (write_string_tracked_go s w 0).1
    · rw [(write_string_tracked_go s w 0).2]; omega
  rw [h1, (write_string_tracked_go t (w.write_string s) (w.write_string_scrolls s)).2]

/-! ### In-row writes (no wrap, no scroll) -/

lemma write_string_inRow (s : List Nat) :
    ∀ w : Writer, (∀ b ∈ s, 0x20 ≤ b ∧ b ≤ 0x7e) →
      w.column_position + s.length ≤ BUFFER_WIDTH →
      (w.write_string s).column_position = w.column_position + s.length
      ∧ (w.write_string s).color_code = w.color_code
      ∧ (∀ i, (hi : i < s.length) →
          (w.write_string s).buffer (BUFFER_HEIGHT - 1) (w.column_position + i)
            = { ascii_character := s.get ⟨i, hi⟩, color_code := w.color_code })
      ∧ (∀ r c,
          (r = BUFFER_HEIGHT - 1 →
            c < w.column_position ∨ w.column_position + s.length ≤ c) →
          (w.write_string s).buffer r c = w.buffer r c)
      ∧ w.write_string_scrolls s = 0 := by
  induction s with
  | nil =>
    intro w _ _
    refine ⟨rfl, rfl, ?_, ?_, rfl⟩
    · intro i hi
      exact absurd hi (Nat.not_lt_zero i)
    · intro r c _
      rfl
  | cons b t ih =>
    intro w hs hlen
    have hb := hs b (List.mem_cons_self b t)
    have hbne : b ≠ 0x0A := by omega
    have hfb : forwardByte b = b := by
      unfold forwardByte
      rw [if_pos (Or.inl hb)]
    have hlen1 : w.column_position + (t.length + 1) ≤ BUFFER_WIDTH := by
      simpa using hlen
    have hcol : w.column_position < BUFFER_WIDTH := by omega
    have hw1eq := write_byte_no_wrap w b hbne hcol
    have h1col : (w.write_byte b).column_position = w.column_position + 1 := by
      rw [hw1eq]
    have h1color : (w.write_byte b).color_code = w.color_code := by
      rw [hw1eq]
    have h1buf : ∀ r c, (w.write_byte b).buffer r c
        = if r = BUFFER_HEIGHT - 1 ∧ c = w.column_position
          then { ascii_character := b, color_code := w.color_code }
          else w.buffer r c := by
      intro r c
      rw [hw1eq]
      rfl
    obtain ⟨ihcol, ihcolor, ihcells, ihframe, ihscr⟩ :=
      ih (w.write_byte b) (fun x hx => hs x (List.mem_cons_of_mem _ hx))
        (by rw [h1col]; omega)
    have hstep : w.write_string (b :: t) = (w.write_byte b).write_string t := by
      rw [write_string_cons, write_string_step_eq, hfb]
    refine ⟨?_, ?_, ?_, ?_, ?_⟩
    · rw [hstep, ihcol, h1col]
      simp
      omega
    · rw [hstep, ihcolor, h1color]
    · intro i hi
      rw [hstep]
      cases i with
      | zero =>
        have hfr : ((w.write_byte b).write_string t).buffer (BUFFER_HEIGHT - 1)
            w.column_position = (w.write_byte b).buffer (BUFFER_HEIGHT - 1)
            w.column_position := by
          apply ihframe
          intro _
          left
          omega
        rw [Nat.add_zero, hfr, h1buf]
        rw [if_pos ⟨rfl, rfl⟩]
        rfl
      | succ j =>
        have hj : j < t.length := by
          simpa using hi
        have hidx : w.column_position + (j + 1)
            = (w.write_byte b).column_position + j := by
          rw [h1col]; omega
        rw [hidx]
        rw [ihcells j hj, h1color]
        rfl
    · intro r c hrc
      rw [hstep]
      have h2 : ((w.write_byte b).write_string t).buffer r c
          = (w.write_byte b).buffer r c := by
        apply ihframe
        intro hr
        rcases hrc hr with h | h
        · left
          rw [h1col]
          omega
        · right
          rw [h1col]
          simp at h
          omega
      rw [h2, h1buf, if_neg ?_]
      intro ⟨hr, hc⟩
      rcases hrc hr with h | h
      · omega
      · simp at h
        omega
    · rw [write_string_scrolls_cons, hfb, ihscr]
      have : w.write_byte_scrolls b = 0 := by
        unfold Writer.write_byte_scrolls
        rw [if_neg hbne, if_neg (Nat.not_le.mpr hcol)]
      rw [this]

/-! ### Cell sanitization (printable or replacement glyph) -/

lemma cellOk_blank (cc : ColorCode) :
    cellOk { ascii_character := 0x20, color_code := cc } := by
  show (0x20 ≤ (0x20 : Nat) ∧ (0x20 : Nat) ≤ 0x7e) ∨ (0x20 : Nat) = 0xFE
  decide

lemma new_line_cellOk (w : Writer) (h : ∀ r c, cellOk (w.buffer r c)) :
    ∀ r c, cellOk ((w.new_line).buffer r c) := by
  intro r c
  rw [new_line_buffer]
  split_ifs
  · exact cellOk_blank _
  · exact h _ _
  · exact h _ _

lemma write_byte_cellOk (w : Writer) (b : Nat)
    (hb : (0x20 ≤ b ∧ b ≤ 0x7e) ∨ b = 0xFE ∨ b = 0x0A)
    (h : ∀ r c, cellOk (w.buffer r c)) :
    ∀ r c, cellOk ((w.write_byte b).buffer r c) := by
  by_cases hnl : b = 0x0A
  · rw [hnl, write_byte_newline]
    exact new_line_cellOk w h
  · have hb2 : (0x20 ≤ b ∧ b ≤ 0x7e) ∨ b = 0xFE := by
      rcases hb with h1 | h1 | h1
      · exact Or.inl h1
      · exact Or.inr h1
      · exact absurd h1 hnl
    intro r c
    by_cases hc : w.column_position < BUFFER_WIDTH
    · rw [write_byte_no_wrap w b hnl hc]
      show cellOk (w.buffer.writeCell (BUFFER_HEIGHT - 1) w.column_position
        { ascii_character := b, color_code := w.color_code } r c)
      rw [writeCell_apply]
      split_ifs
      · exact hb2
      · exact h _ _
    · rw [write_byte_wrap w b hnl (Nat.not_lt.mp hc)]
      show cellOk ((w.new_line).buffer.writeCell (BUFFER_HEIGHT - 1) 0
        { ascii_character := b, color_code := w.color_code } r c)
      rw [writeCell_apply]
      split_ifs
      · exact hb2
      · exact new_line_cellOk w h _ _

lemma forwardByte_ok (b : Nat) :
    (0x20 ≤ forwardByte b ∧ forwardByte b ≤ 0x7e)
      ∨ forwardByte b = 0xFE ∨ forwardByte b = 0x0A := by
  unfold forwardByte
  split_ifs with hcond
  · rcases hcond with h1 | h1
    · exact Or.inl h1
    · exact Or.inr (Or.inr h1)
  · exact Or.inr (Or.inl rfl)

lemma write_string_cellOk (s : List Nat) :
    ∀ w : Writer, (∀ r c, cellOk (w.buffer r c)) →
      ∀ r c, cellOk ((w.write_string s).buffer r c) := by
  induction s with
  | nil => exact fun w h => h
  | cons b t ih =>
    intro w h
    have hstep : w.write_string (b :: t)
        = (w.write_byte (forwardByte b)).write_string t := by
      rw [write_string_cons, write_string_step_eq]
    rw [hstep]
    exact ih _ (write_byte_cellOk w (forwardByte b) (forwardByte_ok b) h)

/-! ### Concrete inputs used by witnesses and counterexamples -/

/-- The bytes of the string Hello World with a trailing bang, as in the
    repository entry point. -/
def helloBytes : List Nat :=
  [0x48, 0x65, 0x6C, 0x6C, 0x6F, 0x20, 0x57, 0x6F, 0x72, 0x6C, 0x64, 0x21]

/-- Eighty copies of the printable byte 0x41. -/
def bytes80 : List Nat := List.replicate 80 0x41

/-- A writer whose column position sits exactly at the width boundary. -/
def wideWriter : Writer := { initialWriter with column_position := BUFFER_WIDTH }

/-! ### The claims -/

/-- C1: starting from a Writer with column position 0, every finite sequence of
`write_byte` / `write_string` calls leaves the column position in
[0, BUFFER_WIDTH]; and when the column position equals BUFFER_WIDTH, the next
printable (non-newline) byte triggers exactly one wrap (`new_line`) before
being placed: the byte lands at column 0 of the bottom row and the column
position becomes 1. -/
theorem column_bound_invariant :
    (∀ (w : Writer) (ops : List WriteOp), w.column_position = 0 →
      (w.applyOps ops).column_position ≤ BUFFER_WIDTH)
    ∧ (∀ (w : Writer) (b : Nat), w.column_position = BUFFER_WIDTH → b ≠ 0x0A →
      w.write_byte_scrolls b = 1
      ∧ (w.write_byte b).buffer (BUFFER_HEIGHT - 1) 0
          = { ascii_character := b, color_code := w.color_code }
      ∧ (w.write_byte b).column_position = 1) := by
  constructor
  · intro w ops h
    apply applyOps_column_le
    rw [h]
    exact Nat.zero_le _
  · intro w b hcol hb
    have hge : BUFFER_WIDTH ≤ w.column_position := le_of_eq hcol.symm
    refine ⟨?_, ?_, ?_⟩
    · unfold Writer.write_byte_scrolls
      rw [if_neg hb, if_pos hge]
    · rw [write_byte_wrap w b hb hge]
      show (w.new_line).buffer.writeCell (BUFFER_HEIGHT - 1) 0
        { ascii_character := b, color_code := w.color_code } (BUFFER_HEIGHT - 1) 0 = _
      rw [writeCell_apply, if_pos ⟨rfl, rfl⟩]
    · rw [write_byte_wrap w b hb hge]

/-- C1 witness: the invariant and the boundary-wrap behavior at concrete
inputs. -/
theorem column_bound_invariant_witness :
    (initialWriter.applyOps
      [WriteOp.byte 0x41, WriteOp.str [0x42, 0x0A]]).column_position ≤ BUFFER_WIDTH
    ∧ wideWriter.write_byte_scrolls 0x58 = 1
    ∧ (wideWriter.write_byte 0x58).buffer (BUFFER_HEIGHT - 1) 0
        = { ascii_character := 0x58, color_code := wideWriter.color_code }
    ∧ (wideWriter.write_byte 0x58).column_position = 1 :=
  ⟨column_bound_invariant.1 initialWriter [WriteOp.byte 0x41, WriteOp.str [0x42, 0x0A]] rfl,
   (column_bound_invariant.2 wideWriter 0x58 rfl (by decide)).1,
   (column_bound_invariant.2 wideWriter 0x58 rfl (by decide)).2.1,
   (column_bound_invariant.2 wideWriter 0x58 rfl (by decide)).2.2⟩

/-- C2: after one `new_line`, every row r in [1, BUFFER_HEIGHT-1] has moved up
one row (cellwise), the bottom row is all blanks in the current color, and the
column position is 0. -/
theorem scroll_correctness (w : Writer) :
    (∀ r c, 1 ≤ r → r ≤ BUFFER_HEIGHT - 1 → c < BUFFER_WIDTH →
      (w.new_line).buffer (r - 1) c = w.buffer r c)
    ∧ (∀ c, c < BUFFER_WIDTH →
      (w.new_line).buffer (BUFFER_HEIGHT - 1) c
        = { ascii_character := 0x20, color_code := w.color_code })
    ∧ (w.new_line).column_position = 0 := by
  refine ⟨?_, ?_, new_line_column w⟩
  · intro r c h1 h2 hc
    have hH : (BUFFER_HEIGHT : Nat) = 25 := rfl
    rw [new_line_buffer,
      if_neg (show ¬(r - 1 = BUFFER_HEIGHT - 1 ∧ c < BUFFER_WIDTH) by omega),
      if_pos (show r - 1 + 1 ≤ BUFFER_HEIGHT - 1 ∧ c < BUFFER_WIDTH from ⟨by omega, hc⟩)]
    have hr : r - 1 + 1 = r := by omega
    rw [hr]
  · intro c hc
    rw [new_line_buffer, if_pos ⟨rfl, hc⟩]

/-- C2 witness: scroll correctness evaluated at a concrete writer and cells. -/
theorem scroll_correctness_witness :
    (initialWriter.new_line).buffer 0 5 = initialWriter.buffer 1 5
    ∧ (initialWriter.new_line).buffer (BUFFER_HEIGHT - 1) 0
        = { ascii_character := 0x20, color_code := initialWriter.color_code }
    ∧ (initialWriter.new_line).column_position = 0 :=
  ⟨(scroll_correctness initialWriter).1 1 5 (by decide) (by decide) (by decide),
   (scroll_correctness initialWriter).2.1 0 (by decide),
   (scroll_correctness initialWriter).2.2⟩

/-- C3: `write_byte` contract: a newline performs exactly `new_line`; a
non-newline byte with the column short of the width is placed at
(BUFFER_HEIGHT-1, column) and the column advances by one; a non-newline byte
with the column at the width first wraps, is placed at (BUFFER_HEIGHT-1, 0),
and leaves the column at 1. -/
theorem write_byte_contract (w : Writer) (b : Nat)
    (h : w.column_position ≤ BUFFER_WIDTH) :
    (b = 0x0A → w.write_byte b = w.new_line)
    ∧ (b ≠ 0x0A → w.column_position < BUFFER_WIDTH →
        w.write_byte b
          = { w with
                buffer := w.buffer.writeCell (BUFFER_HEIGHT - 1) w.column_position
                  { ascii_character := b, color_code := w.color_code },
                column_position := w.column_position + 1 })
    ∧ (b ≠ 0x0A → w.column_position = BUFFER_WIDTH →
        w.write_byte b
          = { w.new_line with
                buffer := (w.new_line).buffer.writeCell (BUFFER_HEIGHT - 1) 0
                  { ascii_character := b, color_code := w.color_code },
                column_position := 1 }) := by
  refine ⟨?_, ?_, ?_⟩
  · intro hb
    rw [hb, write_byte_newline]
  · intro hb hc
    exact write_byte_no_wrap w b hb hc
  · intro hb hc
    exact write_byte_wrap w b hb (le_of_eq hc.symm)

/-- C3 witness: the three branches of the contract at concrete inputs. -/
theorem write_byte_contract_witness :
    initialWriter.write_byte 0x0A = initialWriter.new_line
    ∧ initialWriter.write_byte 0x41
        = { initialWriter with
              buffer := initialWriter.buffer.writeCell (BUFFER_HEIGHT - 1)
                initialWriter.column_position
                { ascii_character := 0x41, color_code := initialWriter.color_code },
              column_position := initialWriter.column_position + 1 }
    ∧ wideWriter.write_byte 0x41
        = { wideWriter.new_line with
              buffer := (wideWriter.new_line).buffer.writeCell (BUFFER_HEIGHT - 1) 0
                { ascii_character := 0x41, color_code := wideWriter.color_code },
              column_position := 1 } :=
  ⟨(write_byte_contract initialWriter 0x0A (by decide)).1 rfl,
   (write_byte_contract initialWriter 0x41 (by decide)).2.1 (by decide) (by decide),
   (write_byte_contract wideWriter 0x41 (by decide)).2.2 (by decide) rfl⟩

/-- C4: `write_string` forwards each byte unchanged exactly when it is
printable ASCII [0x20, 0x7E] or newline, and forwards 0xFE otherwise; starting
from a buffer whose cells are all printable-or-replacement, every cell after
`write_string` is still printable-or-replacement, so no raw out-of-range byte
is ever written to a cell. -/
theorem write_string_filtering (w : Writer) (s : List Nat)
    (hw : ∀ r c, cellOk (w.buffer r c)) :
    w.write_string s = s.foldl (fun w1 byte => w1.write_byte (forwardByte byte)) w
    ∧ (∀ b, (0x20 ≤ b ∧ b ≤ 0x7e) ∨ b = 0x0A → forwardByte b = b)
    ∧ (∀ b, ¬((0x20 ≤ b ∧ b ≤ 0x7e) ∨ b = 0x0A) → forwardByte b = 0xFE)
    ∧ (∀ r c, cellOk ((w.write_string s).buffer r c)) := by
  refine ⟨?_, ?_, ?_, write_string_cellOk s w hw⟩
  · show List.foldl _ w s = _
    have hfun : (fun (w1 : Writer) (byte : Nat) =>
        if (0x20 ≤ byte ∧ byte ≤ 0x7e) ∨ byte = 0x0A then w1.write_byte byte
        else w1.write_byte 0xFE)
        = fun (w1 : Writer) (byte : Nat) => w1.write_byte (forwardByte byte) := by
      funext w1 byte
      exact write_string_step_eq w1 byte
    rw [hfun]
  · intro b hbp
    unfold forwardByte
    rw [if_pos hbp]
  · intro b hbp
    unfold forwardByte
    rw [if_neg hbp]

/-- C4 witness: filtering at a concrete input containing a non-printable byte. -/
theorem write_string_filtering_witness :
    initialWriter.write_string [0x41, 0x01, 0x0A]
      = [0x41, 0x01, 0x0A].foldl (fun w1 byte => w1.write_byte (forwardByte byte))
          initialWriter
    ∧ forwardByte 0x41 = 0x41
    ∧ forwardByte 0x01 = 0xFE
    ∧ cellOk ((initialWriter.write_string [0x41, 0x01, 0x0A]).buffer 3 7) :=
  ⟨(write_string_filtering initialWriter [0x41, 0x01, 0x0A]
      (fun r c => cellOk_blank _)).1,
   (write_string_filtering initialWriter [0x41, 0x01, 0x0A]
      (fun r c => cellOk_blank _)).2.1 0x41 (by decide),
   (write_string_filtering initialWriter [0x41, 0x01, 0x0A]
      (fun r c => cellOk_blank _)).2.2.1 0x01 (by decide),
   (write_string_filtering initialWriter [0x41, 0x01, 0x0A]
      (fun r c => cellOk_blank _)).2.2.2 3 7⟩

/-- C5 (counterexample): with background White (code 15), `ColorCode::new`
produces 0xF0: bit 7 is set, and bits 4-6 hold 7, not the background code 15.
This refutes the claim that bit 7 is left unset for every background color. -/
theorem colorcode_bit7_counterexample :
    (ColorCode.new Color.Black Color.White).val = 0xF0
    ∧ Nat.testBit (ColorCode.new Color.Black Color.White).val 7 = true
    ∧ (ColorCode.new Color.Black Color.White).val / 16 % 8 ≠ Color.White.code := by
  decide

/-- C5 (amended): for every foreground and background color, bits 0-3 of the
packed byte are the foreground code and bits 4-7 are the full background code:
bits 4-6 hold the low three bits of the background code and bit 7 equals
bit 3 of the background code, so bit 7 is set exactly for background codes 8-15. -/
theorem colorcode_byte_format (fg bg : Color) :
    (ColorCode.new fg bg).val % 16 = fg.code
    ∧ (ColorCode.new fg bg).val / 16 % 8 = bg.code % 8
    ∧ Nat.testBit (ColorCode.new fg bg).val 7 = Nat.testBit bg.code 3 := by
  cases fg <;> cases bg <;> decide

/-- C6: writing a printable string with no newline and length at most
BUFFER_WIDTH from column 0 leaves the bytes of the string, in order, in the
first cells of the bottom row, and the column position equals the length of
the string. -/
theorem round_trip (s : List Nat) (hs : ∀ b ∈ s, 0x20 ≤ b ∧ b ≤ 0x7e)
    (hlen : s.length ≤ BUFFER_WIDTH) (w : Writer) (hw : w.column_position = 0) :
    (∀ i, (hi : i < s.length) →
      ((w.write_string s).buffer (BUFFER_HEIGHT - 1) i).ascii_character
        = s.get ⟨i, hi⟩)
    ∧ (w.write_string s).column_position = s.length := by
  obtain ⟨hcol, _hcolor, hcells, _hframe, _hscr⟩ :=
    write_string_inRow s w hs (by rw [hw]; simpa using hlen)
  constructor
  · intro i hi
    have h1 := hcells i hi
    rw [hw, Nat.zero_add] at h1
    rw [h1]
  · rw [hcol, hw, Nat.zero_add]

/-- C6 witness: writing Hello World from the initial writer yields those
twelve characters in the bottom row and column position 12. -/
theorem round_trip_witness :
    ((initialWriter.write_string helloBytes).buffer (BUFFER_HEIGHT - 1) 0).ascii_character
      = 0x48
    ∧ ((initialWriter.write_string helloBytes).buffer (BUFFER_HEIGHT - 1) 11).ascii_character
      = 0x21
    ∧ (initialWriter.write_string helloBytes).column_position = 12 :=
  ⟨(round_trip helloBytes (by decide) (by decide) initialWriter rfl).1 0 (by decide),
   (round_trip helloBytes (by decide) (by decide) initialWriter rfl).1 11 (by decide),
   (round_trip helloBytes (by decide) (by decide) initialWriter rfl).2⟩

set_option maxRecDepth 10000

/-- C7 (counterexample): writing exactly 80 printable bytes from column 0
performs zero wraps, not exactly one: the scroll count is 0 and the column
position is left at the width, not reset by any wrap. -/
theorem wrap_boundary_counterexample :
    initialWriter.write_string_scrolls bytes80 = 0
    ∧ initialWriter.write_string_scrolls bytes80 ≠ 1
    ∧ (initialWriter.write_string bytes80).column_position = BUFFER_WIDTH := by
  refine ⟨by decide, by decide, by decide⟩

/-- C7 (amended): writing exactly BUFFER_WIDTH printable bytes from column 0
performs no wrap at all: the column position ends at BUFFER_WIDTH and the
bottom row holds exactly those bytes, uncorrupted; the wrap is deferred, and
occurs exactly once when the next printable byte is written. -/
theorem wrap_boundary_amended (s : List Nat) (hs : ∀ b ∈ s, 0x20 ≤ b ∧ b ≤ 0x7e)
    (hlen : s.length = BUFFER_WIDTH) (w : Writer) (hw : w.column_position = 0) :
    w.write_string_scrolls s = 0
    ∧ (w.write_string s).column_position = BUFFER_WIDTH
    ∧ (∀ i, (hi : i < s.length) →
        ((w.write_string s).buffer (BUFFER_HEIGHT - 1) i).ascii_character
          = s.get ⟨i, hi⟩)
    ∧ (∀ b, 0x20 ≤ b → b ≤ 0x7e →
        (w.write_string s).write_byte_scrolls b = 1) := by
  obtain ⟨hcol, _hcolor, hcells, _hframe, hscr⟩ :=
    write_string_inRow s w hs (by rw [hw, hlen]; simp)
  have hcol80 : (w.write_string s).column_position = BUFFER_WIDTH := by
    rw [hcol, hw, Nat.zero_add, hlen]
  refine ⟨hscr, hcol80, ?_, ?_⟩
  · intro i hi
    have h1 := hcells i hi
    rw [hw, Nat.zero_add] at h1
    rw [h1]
  · intro b hb1 hb2
    unfold Writer.write_byte_scrolls
    rw [if_neg (show b ≠ 0x0A by omega), if_pos (le_of_eq hcol80.symm)]

/-- C7 witness: the amended statement at 80 copies of the byte 0x41. -/
theorem wrap_boundary_amended_witness :
    initialWriter.write_string_scrolls bytes80 = 0
    ∧ (initialWriter.write_string bytes80).column_position = BUFFER_WIDTH
    ∧ ((initialWriter.write_string bytes80).buffer (BUFFER_HEIGHT - 1) 0).ascii_character
        = 0x41
    ∧ (initialWriter.write_string bytes80).write_byte_scrolls 0x42 = 1 :=
  ⟨(wrap_boundary_amended bytes80 (by decide) (by decide) initialWriter rfl).1,
   (wrap_boundary_amended bytes80 (by decide) (by decide) initialWriter rfl).2.1,
   (wrap_boundary_amended bytes80 (by decide) (by decide) initialWriter rfl).2.2.1 0
     (by decide),
   (wrap_boundary_amended bytes80 (by decide) (by decide) initialWriter rfl).2.2.2 0x42
     (by decide) (by decide)⟩

/-- C8: after 80 printable bytes from column 0 and then one more printable
byte, exactly one wrap occurred, the 81st byte lands on the bottom row at
column 0, and the column position is 1. -/
theorem byte81_placement (s : List Nat) (b : Nat)
    (hs : ∀ x ∈ s, 0x20 ≤ x ∧ x ≤ 0x7e) (hb : 0x20 ≤ b ∧ b ≤ 0x7e)
    (hlen : s.length = BUFFER_WIDTH) (w : Writer) (hw : w.column_position = 0) :
    w.write_string_scrolls (s ++ [b]) = 1
    ∧ (w.write_string (s ++ [b])).buffer (BUFFER_HEIGHT - 1) 0
        = { ascii_character := b, color_code := w.color_code }
    ∧ (w.write_string (s ++ [b])).column_position = 1 := by
  obtain ⟨hcol, hcolor, _hcells, _hframe, hscr⟩ :=
    write_string_inRow s w hs (by rw [hw, hlen]; simp)
  have hbne : b ≠ 0x0A := by omega
  have hfb : forwardByte b = b := by
    unfold forwardByte
    rw [if_pos (Or.inl hb)]
  have hcol80 : BUFFER_WIDTH ≤ (w.write_string s).column_position := by
    rw [hcol, hw, Nat.zero_add, hlen]
  have hsingle : (w.write_string s).write_string [b]
      = (w.write_string s).write_byte b := by
    rw [write_string_cons, write_string_step_eq, hfb]
    rfl
  have happ : w.write_string (s ++ [b]) = (w.write_string s).write_byte b := by
    rw [write_string_append, hsingle]
  have hwrap := write_byte_wrap (w.write_string s) b hbne hcol80
  refine ⟨?_, ?_, ?_⟩
  · rw [write_string_scrolls_append, hscr, write_string_scrolls_cons, hfb]
    have h1 : (w.write_string s).write_byte_scrolls b = 1 := by
      unfold Writer.write_byte_scrolls
      rw [if_neg hbne, if_pos hcol80]
    rw [h1]
    rfl
  · rw [happ, hwrap]
    show ((w.write_string s).new_line).buffer.writeCell (BUFFER_HEIGHT - 1) 0
      { ascii_character := b, color_code := (w.write_string s).color_code }
      (BUFFER_HEIGHT - 1) 0 = _
    rw [writeCell_apply, if_pos ⟨rfl, rfl⟩, hcolor]
  · rw [happ, hwrap]

/-- C8 witness: 80 copies of 0x41 followed by 0x42 from the initial writer. -/
theorem byte81_placement_witness :
    initialWriter.write_string_scrolls (bytes80 ++ [0x42]) = 1
    ∧ (initialWriter.write_string (bytes80 ++ [0x42])).buffer (BUFFER_HEIGHT - 1) 0
        = { ascii_character := 0x42, color_code := initialWriter.color_code }
    ∧ (initialWriter.write_string (bytes80 ++ [0x42])).column_position = 1 :=
  ⟨(byte81_placement bytes80 0x42 (by decide) (by decide) (by decide)
      initialWriter rfl).1,
   (byte81_placement bytes80 0x42 (by decide) (by decide) (by decide)
      initialWriter rfl).2.1,
   (byte81_placement bytes80 0x42 (by decide) (by decide) (by decide)
      initialWriter rfl).2.2⟩

/-- C9: the formatting bridge `write_str` always returns Ok for every input,
and its writer component is exactly the `write_string` result (the write fully
completes). -/
theorem write_str_never_fails (w : Writer) (s : List Nat) :
    (w.write_str s).2 = FmtResult.ok ∧ (w.write_str s).1 = w.write_string s :=
  ⟨rfl, rfl⟩

/-- C10: an in-row `write_byte` of a non-newline byte modifies only the single
cell (BUFFER_HEIGHT-1, column) and the column position (incremented by one);
every other cell and the color are unchanged. -/
theorem write_byte_frame (w : Writer) (b : Nat) (hb : b ≠ 0x0A)
    (hc : w.column_position < BUFFER_WIDTH) :
    (w.write_byte b).buffer (BUFFER_HEIGHT - 1) w.column_position
      = { ascii_character := b, color_code := w.color_code }
    ∧ (∀ r c, ¬(r = BUFFER_HEIGHT - 1 ∧ c = w.column_position) →
        (w.write_byte b).buffer r c = w.buffer r c)
    ∧ (w.write_byte b).column_position = w.column_position + 1
    ∧ (w.write_byte b).color_code = w.color_code := by
  have he := write_byte_no_wrap w b hb hc
  refine ⟨?_, ?_, ?_, ?_⟩
  · rw [he]
    show w.buffer.writeCell (BUFFER_HEIGHT - 1) w.column_position
      { ascii_character := b, color_code := w.color_code } (BUFFER_HEIGHT - 1)
      w.column_position = _
    rw [writeCell_apply, if_pos ⟨rfl, rfl⟩]
  · intro r c hrc
    rw [he]
    show w.buffer.writeCell (BUFFER_HEIGHT - 1) w.column_position
      { ascii_character := b, color_code := w.color_code } r c = _
    rw [writeCell_apply, if_neg hrc]
  · rw [he]
  · rw [he]

/-- C10 witness: the frame property at the initial writer and byte 0x41,
checking the written cell, an untouched cell, the column, and the color. -/
theorem write_byte_frame_witness :
    (initialWriter.write_byte 0x41).buffer (BUFFER_HEIGHT - 1)
      initialWriter.column_position
      = { ascii_character := 0x41, color_code := initialWriter.color_code }
    ∧ (initialWriter.write_byte 0x41).buffer 3 7 = initialWriter.buffer 3 7
    ∧ (initialWriter.write_byte 0x41).column_position
        = initialWriter.column_position + 1
    ∧ (initialWriter.write_byte 0x41).color_code = initialWriter.color_code :=
  ⟨(write_byte_frame initialWriter 0x41 (by decide) (by decide)).1,
   (write_byte_frame initialWriter 0x41 (by decide) (by decide)).2.1 3 7 (by decide),
   (write_byte_frame initialWriter 0x41 (by decide) (by decide)).2.2.1,
   (write_byte_frame initialWriter 0x41 (by decide) (by decide)).2.2.2⟩

end VgaBuffer
